import Mathlib

/-!
Verification of the repository's calculator against its specification.

The repository contains near-duplicate calculator variants. The specification
(spec.md) scopes itself to the checked signed-64-bit-integer accumulator with
bounded history ("the checked-integer one with bounded history, undo being
absent, but saturating/wrapping helpers present"); the implementation of that
variant is not among the staged sources — only its test module
(src/src/tests.rs, which exercises `negate`, `factorial`, `checked_add`,
`saturating::add`, `wrapping::add`, `with_capacity`) is. The namespace `Spec`
below models that accumulator from the specification's words.

The staged file src/src/calculator.rs is a different, floating-point (f64)
variant (it has `undo` and `set_value`, and no saturating/wrapping helpers).
It is embedded faithfully below over an abstract model of the f64 primitives
(`FloatModel`): the properties proved about it depend only on its control
flow, never on floating-point rounding.
-/

namespace Spec

/-- Modelled from the spec: the error taxonomy of §7 (the spec's four kinds;
the checked-integer calculator's own source is not among the staged files). -/
inductive AccError where
  | overflow
  | underflow
  | divisionByZero
  | invalid (reason : String)
  deriving DecidableEq

/-- Smallest signed 64-bit integer. -/
def i64Min : Int := -(2 ^ 63)

/-- Largest signed 64-bit integer. -/
def i64Max : Int := 2 ^ 63 - 1

/-- Whether an exact integer is representable as a signed 64-bit integer. -/
def fitsI64 (n : Int) : Bool := decide (i64Min ≤ n) && decide (n ≤ i64Max)

/-- Modelled from the spec: a history entry of the checked-integer accumulator
(§3): a textual description of the operation and the value of the current
value immediately after it. -/
structure HistoryEntry where
  description : String
  result : Int
  deriving DecidableEq

/-- Modelled from the spec: the accumulator's state (§3): current value,
bounded insertion-ordered history, and the capacity fixed at construction. -/
structure Accumulator where
  current_value : Int
  history : List HistoryEntry
  capacity : Nat
  deriving DecidableEq

/-- Modelled from the spec: construction with an explicit capacity; the
default-capacity constructor is `new 100` (§3: default 100). -/
def Accumulator.new (cap : Nat) : Accumulator := ⟨0, [], cap⟩

/-- The closed set of fallible operations of §4.1, as data. -/
inductive Instr where
  | add (v : Int)
  | sub (v : Int)
  | mul (v : Int)
  | div (v : Int)
  | mod (v : Int)
  | neg
  | pow (e : Int)
  | fact
  deriving DecidableEq

/-- Binary description `"<prev> <symbol> <operand>"` (§4.1 / §3, e.g. "10 + 5"). -/
def mkDesc (a : Int) (sym : String) (b : Int) : String :=
  toString a ++ sym ++ toString b

/-- Modelled from the spec: the pure result of one checked operation at
current value `a` (§4.1's operation table and §7's error taxonomy); returns
the canonical description and the exact result, or the table's error kind.
Division and modulo truncate (§4.1: "truncating"). -/
def exec1 (a : Int) : Instr → Except AccError (String × Int)
  | .add v =>
    let r := a + v
    if fitsI64 r then .ok (mkDesc a " + " v, r) else .error .overflow
  | .sub v =>
    let r := a - v
    if fitsI64 r then .ok (mkDesc a " - " v, r) else .error .underflow
  | .mul v =>
    let r := a * v
    if fitsI64 r then .ok (mkDesc a " × " v, r) else .error .overflow
  | .div v =>
    if v = 0 then .error .divisionByZero
    else
      let r := Int.tdiv a v
      if fitsI64 r then .ok (mkDesc a " ÷ " v, r) else .error .overflow
  | .mod v =>
    if v = 0 then .error .divisionByZero
    else
      let r := Int.tmod a v
      if fitsI64 r then .ok (mkDesc a " % " v, r) else .error .overflow
  | .neg =>
    let r := -a
    if fitsI64 r then .ok ("neg(" ++ toString a ++ ")", r) else .error .overflow
  | .pow e =>
    if e < 0 then .error (.invalid "negative exponent")
    else
      let r := a ^ e.toNat
      if fitsI64 r then .ok ("pow(" ++ toString a ++ ", " ++ toString e ++ ")", r)
      else .error .overflow
  | .fact =>
    if a < 0 then .error (.invalid "factorial of negative")
    else if 20 < a then .error .overflow
    else
      let r : Int := Nat.factorial a.toNat
      if fitsI64 r then .ok (toString a ++ "!", r) else .error .overflow

/-- Modelled from the spec: committing a successful operation (§4.1): append
one entry holding the description and the new current value, then evict the
oldest entry if the log was already at capacity. -/
def Accumulator.commit (c : Accumulator) (d : String) (r : Int) : Accumulator :=
  let h := c.history ++ [{ description := d, result := r }]
  { c with current_value := r,
           history := if c.capacity < h.length then h.tail else h }

/-- Modelled from the spec: one operation as a transition
`(state, operand) → (state', Result)` (§4.1's state machine): on success the
exact result is committed, on error the state is returned unchanged. -/
def Accumulator.step (c : Accumulator) (i : Instr) :
    Accumulator × Except AccError Int :=
  match exec1 c.current_value i with
  | .ok (d, r) => (c.commit d r, .ok r)
  | .error e => (c, .error e)

/-- Modelled from the spec: `add(v)` (§4.1). -/
def Accumulator.add (c : Accumulator) (v : Int) : Accumulator × Except AccError Int :=
  c.step (.add v)

/-- Modelled from the spec: `subtract(v)` (§4.1). -/
def Accumulator.subtract (c : Accumulator) (v : Int) : Accumulator × Except AccError Int :=
  c.step (.sub v)

/-- Modelled from the spec: `multiply(v)` (§4.1). -/
def Accumulator.multiply (c : Accumulator) (v : Int) : Accumulator × Except AccError Int :=
  c.step (.mul v)

/-- Modelled from the spec: `divide(v)` (§4.1). -/
def Accumulator.divide (c : Accumulator) (v : Int) : Accumulator × Except AccError Int :=
  c.step (.div v)

/-- Modelled from the spec: `modulo(v)` (§4.1). -/
def Accumulator.modulo (c : Accumulator) (v : Int) : Accumulator × Except AccError Int :=
  c.step (.mod v)

/-- Modelled from the spec: `negate()` (§4.1). -/
def Accumulator.negate (c : Accumulator) : Accumulator × Except AccError Int :=
  c.step .neg

/-- Modelled from the spec: `power(exp)` (§4.1, with §9: a negative exponent is
a precondition violation reported as Invalid). -/
def Accumulator.power (c : Accumulator) (e : Int) : Accumulator × Except AccError Int :=
  c.step (.pow e)

/-- Modelled from the spec: `factorial()` (§4.1): defined for
`0 ≤ current ≤ 20`; negative current is Invalid("factorial of negative"),
current above 20 is Overflow. -/
def Accumulator.factorial (c : Accumulator) : Accumulator × Except AccError Int :=
  c.step .fact

/-- Modelled from the spec: "clear" resets `current_value` to 0 and empties
history (§3 Lifecycle, §4.1 Mutators). -/
def Accumulator.clear (c : Accumulator) : Accumulator :=
  { c with current_value := 0, history := [] }

/-- Modelled from the spec: "clear history" empties history only, leaving
`current_value` untouched (§3 Lifecycle, §4.1 Mutators). -/
def Accumulator.clear_history (c : Accumulator) : Accumulator :=
  { c with history := [] }

/-- The states reachable through the public operations: construction with a
positive capacity (§3: "fixed positive integer set at construction"), any
fallible operation (successful or not), clear, and clear-history. -/
inductive Reachable : Accumulator → Prop where
  | new (cap : Nat) : 0 < cap → Reachable (Accumulator.new cap)
  | step (c : Accumulator) (i : Instr) : Reachable c → Reachable (c.step i).1
  | clear (c : Accumulator) : Reachable c → Reachable c.clear
  | clear_history (c : Accumulator) : Reachable c → Reachable c.clear_history

/-- The states reachable without ever calling clear-history. -/
inductive ReachableNoCH : Accumulator → Prop where
  | new (cap : Nat) : 0 < cap → ReachableNoCH (Accumulator.new cap)
  | step (c : Accumulator) (i : Instr) : ReachableNoCH c → ReachableNoCH (c.step i).1
  | clear (c : Accumulator) : ReachableNoCH c → ReachableNoCH c.clear

/-- Run a list of operations, requiring every one of them to succeed. -/
def runAll (c : Accumulator) : List Instr → Option Accumulator
  | [] => some c
  | i :: rest =>
    match c.step i with
    | (c1, .ok _) => runAll c1 rest
    | (_, .error _) => none

/-- The unbounded trace of a successful run from a bare value: the history
entries every operation would append, in insertion order, and the final value. -/
def traceRun (a : Int) : List Instr → Option (List HistoryEntry × Int)
  | [] => some ([], a)
  | i :: rest =>
    match exec1 a i with
    | .ok (d, r) =>
      match traceRun r rest with
      | some (tr, v) => some (⟨d, r⟩ :: tr, v)
      | none => none
    | .error _ => none

/-- The last `cap` elements of a list (all of it when it is shorter). -/
def lastN (cap : Nat) (l : List HistoryEntry) : List HistoryEntry :=
  l.drop (l.length - cap)

end Spec

/-- An abstract model of the f64 primitives src/src/calculator.rs uses: the
carrier type, the arithmetic operators, and the classification predicates.
Every property proved about the floating-point calculator below holds for
every model, because it depends only on the code's control flow. `isZero x`
models the source's `x == 0.0`. -/
structure FloatModel where
  F : Type
  zero : F
  add : F → F → F
  sub : F → F → F
  mul : F → F → F
  div : F → F → F
  rem : F → F → F
  powf : F → F → F
  isFinite : F → Bool
  isInfinite : F → Bool
  isSignPositive : F → Bool
  isZero : F → Bool

/-- `CalculatorError` of src/src/calculator.rs (lines 4-11): five kinds,
including `HistoryEmpty`, which is absent from the spec's four-kind taxonomy. -/
inductive CalculatorError where
  | divisionByZero
  | overflow
  | underflow
  | invalidOperation (msg : String)
  | historyEmpty
  deriving DecidableEq

/-- `Operation` of src/src/calculator.rs (lines 28-36). -/
inductive Operation where
  | add
  | subtract
  | multiply
  | divide
  | power
  | modulo
  deriving DecidableEq

/-- `HistoryEntry` of src/src/calculator.rs (lines 52-59); the wall-clock
`timestamp` field is not modelled (no claim mentions it). -/
structure HistoryEntry (M : FloatModel) where
  operand1 : M.F
  operation : Operation
  operand2 : M.F
  result : M.F

/-- `Calculator` of src/src/calculator.rs (lines 69-74). -/
structure Calculator (M : FloatModel) where
  current_value : M.F
  history : List (HistoryEntry M)
  max_history_size : Nat

/-- `Calculator::new` (lines 78-84). -/
def Calculator.new (M : FloatModel) : Calculator M := ⟨M.zero, [], 100⟩

/-- `Calculator::with_history_size` (lines 87-93). -/
def Calculator.with_history_size (M : FloatModel) (max_size : Nat) : Calculator M :=
  ⟨M.zero, [], max_size⟩

/-- `Calculator::set_value` (lines 101-103): unconditional, infallible. -/
def Calculator.set_value {M : FloatModel} (c : Calculator M) (value : M.F) :
    Calculator M :=
  { c with current_value := value }

/-- `Calculator::clear` (lines 106-108): resets the current value only; the
source does not touch the history here. -/
def Calculator.clear {M : FloatModel} (c : Calculator M) : Calculator M :=
  { c with current_value := M.zero }

/-- `Calculator::clear_history` (lines 111-113). -/
def Calculator.clear_history {M : FloatModel} (c : Calculator M) : Calculator M :=
  { c with history := [] }

/-- `Calculator::record_operation` (lines 224-239): push an entry whose
`operand1` is the current value before the operation, then remove the front
entry if the length exceeds `max_history_size`. -/
def Calculator.record_operation {M : FloatModel} (c : Calculator M)
    (operation : Operation) (operand result : M.F) : Calculator M :=
  let h := c.history ++
    [{ operand1 := c.current_value, operation := operation,
       operand2 := operand, result := result }]
  { c with history := if c.max_history_size < h.length then h.tail else h }

/-- `Calculator::check_overflow_add` (lines 242-253). -/
def check_overflow_add (M : FloatModel) (a b : M.F) : Except CalculatorError M.F :=
  let result := M.add a b
  if !(M.isFinite result) then
    if M.isInfinite result then .error .overflow
    else .error (.invalidOperation "NaN result")
  else .ok result

/-- `Calculator::check_overflow_sub` (lines 256-271). -/
def check_overflow_sub (M : FloatModel) (a b : M.F) : Except CalculatorError M.F :=
  let result := M.sub a b
  if !(M.isFinite result) then
    if M.isInfinite result then
      if M.isSignPositive result then .error .overflow else .error .underflow
    else .error (.invalidOperation "NaN result")
  else .ok result

/-- `Calculator::check_overflow_mul` (lines 274-285). -/
def check_overflow_mul (M : FloatModel) (a b : M.F) : Except CalculatorError M.F :=
  let result := M.mul a b
  if !(M.isFinite result) then
    if M.isInfinite result then .error .overflow
    else .error (.invalidOperation "NaN result")
  else .ok result

/-- `Calculator::add` (lines 116-121): check, record with the old current
value, then set the current value. -/
def Calculator.add {M : FloatModel} (c : Calculator M) (operand : M.F) :
    Calculator M × Except CalculatorError M.F :=
  match check_overflow_add M c.current_value operand with
  | .error e => (c, .error e)
  | .ok result =>
    ({ c.record_operation .add operand result with current_value := result },
     .ok result)

/-- `Calculator::subtract` (lines 124-129). -/
def Calculator.subtract {M : FloatModel} (c : Calculator M) (operand : M.F) :
    Calculator M × Except CalculatorError M.F :=
  match check_overflow_sub M c.current_value operand with
  | .error e => (c, .error e)
  | .ok result =>
    ({ c.record_operation .subtract operand result with current_value := result },
     .ok result)

/-- `Calculator::multiply` (lines 132-137). -/
def Calculator.multiply {M : FloatModel} (c : Calculator M) (operand : M.F) :
    Calculator M × Except CalculatorError M.F :=
  match check_overflow_mul M c.current_value operand with
  | .error e => (c, .error e)
  | .ok result =>
    ({ c.record_operation .multiply operand result with current_value := result },
     .ok result)

/-- `Calculator::divide` (lines 140-153). -/
def Calculator.divide {M : FloatModel} (c : Calculator M) (operand : M.F) :
    Calculator M × Except CalculatorError M.F :=
  if M.isZero operand then (c, .error .divisionByZero)
  else
    let result := M.div c.current_value operand
    if !(M.isFinite result) then (c, .error .overflow)
    else
      ({ c.record_operation .divide operand result with current_value := result },
       .ok result)

/-- `Calculator::power` (lines 156-166). -/
def Calculator.power {M : FloatModel} (c : Calculator M) (exponent : M.F) :
    Calculator M × Except CalculatorError M.F :=
  let result := M.powf c.current_value exponent
  if !(M.isFinite result) then (c, .error .overflow)
  else
    ({ c.record_operation .power exponent result with current_value := result },
     .ok result)

/-- `Calculator::modulo` (lines 169-178): no finiteness check on the result. -/
def Calculator.modulo {M : FloatModel} (c : Calculator M) (operand : M.F) :
    Calculator M × Except CalculatorError M.F :=
  if M.isZero operand then (c, .error .divisionByZero)
  else
    let result := M.rem c.current_value operand
    ({ c.record_operation .modulo operand result with current_value := result },
     .ok result)

/-- `Calculator::perform_operation` (lines 181-190). -/
def Calculator.perform_operation {M : FloatModel} (c : Calculator M)
    (operation : Operation) (operand : M.F) :
    Calculator M × Except CalculatorError M.F :=
  match operation with
  | .add => c.add operand
  | .subtract => c.subtract operand
  | .multiply => c.multiply operand
  | .divide => c.divide operand
  | .power => c.power operand
  | .modulo => c.modulo operand

/-- `Calculator::undo` (lines 211-219): pop the most recent entry, restore its
`operand1`, or report `HistoryEmpty`. -/
def Calculator.undo {M : FloatModel} (c : Calculator M) :
    Calculator M × Except CalculatorError M.F :=
  match c.history.getLast? with
  | some entry =>
    ({ c with history := c.history.dropLast, current_value := entry.operand1 },
     .ok entry.operand1)
  | none => (c, .error .historyEmpty)

/-- `calculate_simple` (lines 295-329). -/
def calculate_simple (M : FloatModel) (a : M.F) (operation : Operation) (b : M.F) :
    Except CalculatorError M.F :=
  match operation with
  | .add =>
    let result := M.add a b
    if M.isFinite result then .ok result else .error .overflow
  | .subtract =>
    let result := M.sub a b
    if M.isFinite result then .ok result else .error .underflow
  | .multiply =>
    let result := M.mul a b
    if M.isFinite result then .ok result else .error .overflow
  | .divide =>
    if M.isZero b then .error .divisionByZero
    else
      let result := M.div a b
      if M.isFinite result then .ok result else .error .overflow
  | .power =>
    let result := M.powf a b
    if M.isFinite result then .ok result else .error .overflow
  | .modulo =>
    if M.isZero b then .error .divisionByZero
    else .ok (M.rem a b)

/-- A concrete instance of the abstract float signature, used only to
instantiate universally quantified theorems at concrete inputs. -/
def IntModel : FloatModel where
  F := Int
  zero := 0
  add := fun a b => a + b
  sub := fun a b => a - b
  mul := fun a b => a * b
  div := fun a b => Int.tdiv a b
  rem := fun a b => Int.tmod a b
  powf := fun a _ => a
  isFinite := fun _ => true
  isInfinite := fun _ => false
  isSignPositive := fun a => decide (0 ≤ a)
  isZero := fun a => decide (a = 0)

/-- A concrete history entry over `IntModel`, used only by witnesses. -/
def undoEntry : HistoryEntry IntModel :=
  { operand1 := (1 : Int), operation := .add, operand2 := (2 : Int),
    result := (3 : Int) }

/-- A concrete calculator over `IntModel` holding one history entry, used only
by witnesses. -/
def undoProbe : Calculator IntModel :=
  { current_value := (3 : Int), history := [undoEntry], max_history_size := 100 }

/-- The state the C5 counterexample exhibits: a fresh accumulator after a
successful `add 5` followed by `clear_history`. -/
def Spec.afterClearHistory : Spec.Accumulator :=
  ((Spec.Accumulator.new 100).step (Spec.Instr.add 5)).1.clear_history

/-! ## Helper lemmas (shared) -/

/-- Committing leaves the capacity unchanged. -/
theorem Spec.Accumulator.commit_capacity (c : Spec.Accumulator) (d : String)
    (r : Int) : (c.commit d r).capacity = c.capacity := rfl

/-- Committing sets the current value to the committed result. -/
theorem Spec.Accumulator.commit_current (c : Spec.Accumulator) (d : String)
    (r : Int) : (c.commit d r).current_value = r := rfl

/-- A step leaves the capacity unchanged. -/
theorem Spec.Accumulator.step_capacity (c : Spec.Accumulator) (i : Spec.Instr) :
    (c.step i).1.capacity = c.capacity := by
  unfold Spec.Accumulator.step
  cases hx : Spec.exec1 c.current_value i with
  | ok p => obtain ⟨d, r⟩ := p; rfl
  | error e => rfl

/-- Length of the history after a commit, from a state within capacity. -/
theorem Spec.Accumulator.commit_length (c : Spec.Accumulator) (d : String)
    (r : Int) (h : c.history.length ≤ c.capacity) :
    (c.commit d r).history.length = min (c.history.length + 1) c.capacity := by
  unfold Spec.Accumulator.commit
  simp only
  split
  all_goals simp_all
  all_goals omega

/-- Whatever the most recent entry after a commit is, it is the committed one. -/
theorem Spec.Accumulator.commit_getLast_eq (c : Spec.Accumulator) (d : String)
    (r : Int) (e : Spec.HistoryEntry)
    (h : (c.commit d r).history.getLast? = some e) :
    e = { description := d, result := r } := by
  unfold Spec.Accumulator.commit at h
  simp only at h
  split at h
  · cases hh : c.history with
    | nil => rw [hh] at h; simp at h
    | cons a t =>
      rw [hh] at h
      simp only [List.cons_append, List.tail_cons, List.getLast?_concat] at h
      exact (Option.some.injEq _ _ ▸ h).symm
  · rw [List.getLast?_concat] at h
    exact (Option.some.injEq _ _ ▸ h).symm

/-- With a positive capacity, the most recent entry after a commit is the
committed one. -/
theorem Spec.Accumulator.commit_getLast (c : Spec.Accumulator) (d : String)
    (r : Int) (hcap : 0 < c.capacity) :
    (c.commit d r).history.getLast? = some { description := d, result := r } := by
  unfold Spec.Accumulator.commit
  simp only
  split
  · rename_i hcond
    cases hh : c.history with
    | nil => rw [hh] at hcond; simp at hcond; omega
    | cons a t => simp [List.getLast?_concat]
  · rw [List.getLast?_concat]

/-! ## Claim theorems -/

/-- C4: `clear()` resets the current value to 0 and empties the history, while
`clear_history()` empties the history and leaves the current value unchanged
(the spec's checked-integer accumulator, modelled above; both also leave the
capacity unchanged). -/
theorem spec_C4_clear_and_clear_history (c : Spec.Accumulator) :
    c.clear.current_value = 0 ∧ c.clear.history = [] ∧
    c.clear.capacity = c.capacity ∧
    c.clear_history.history = [] ∧
    c.clear_history.current_value = c.current_value ∧
    c.clear_history.capacity = c.capacity :=
  ⟨rfl, rfl, rfl, rfl, rfl, rfl⟩

/-- C9: `set_value(v)` of src/src/calculator.rs unconditionally sets the
current value to `v` (it is total, so it never fails and performs no range or
validity check) and leaves the history and the capacity unchanged, for every
model of the f64 primitives. -/
theorem code_C9_set_value_frame (M : FloatModel) (c : Calculator M) (v : M.F) :
    (c.set_value v).current_value = v ∧
    (c.set_value v).history = c.history ∧
    (c.set_value v).max_history_size = c.max_history_size :=
  ⟨rfl, rfl, rfl⟩

/-- C3: whenever an operation returns an error, the state — current value,
history contents and history length alike — is exactly what it was before the
call: proved for every operation of the spec's checked-integer accumulator,
and likewise for every dispatched operation and for `undo` of the f64
calculator in src/src/calculator.rs. -/
theorem spec_C3_error_frame :
    (∀ (c : Spec.Accumulator) (i : Spec.Instr) (e : Spec.AccError),
        (c.step i).2 = .error e → (c.step i).1 = c) ∧
    (∀ (M : FloatModel) (d : Calculator M) (op : Operation) (v : M.F)
        (e : CalculatorError),
        (d.perform_operation op v).2 = .error e → (d.perform_operation op v).1 = d) ∧
    (∀ (M : FloatModel) (d : Calculator M) (e : CalculatorError),
        d.undo.2 = .error e → d.undo.1 = d) := by
  refine ⟨?_, ?_, ?_⟩
  · intro c i e h
    unfold Spec.Accumulator.step at h ⊢
    cases hx : Spec.exec1 c.current_value i with
    | ok p => obtain ⟨d, r⟩ := p; rw [hx] at h; simp at h
    | error e2 => rfl
  · intro M d op v e h
    cases op <;>
      simp only [Calculator.perform_operation, Calculator.add, Calculator.subtract,
        Calculator.multiply, Calculator.divide, Calculator.power,
        Calculator.modulo] at h ⊢
    case add =>
      cases hx : check_overflow_add M d.current_value v with
      | ok r => rw [hx] at h; simp at h
      | error e2 => rfl
    case subtract =>
      cases hx : check_overflow_sub M d.current_value v with
      | ok r => rw [hx] at h; simp at h
      | error e2 => rfl
    case multiply =>
      cases hx : check_overflow_mul M d.current_value v with
      | ok r => rw [hx] at h; simp at h
      | error e2 => rfl
    case divide =>
      split
      · rfl
      · split
        · rfl
        · rename_i hz hf
          rw [if_neg hz, if_neg hf] at h
          simp at h
    case power =>
      split
      · rfl
      · rename_i hf
        rw [if_neg hf] at h
        simp at h
    case modulo =>
      split
      · rfl
      · rename_i hz
        rw [if_neg hz] at h
        simp at h
  · intro M d e h
    unfold Calculator.undo at h ⊢
    cases hx : d.history.getLast? with
    | some entry => rw [hx] at h; simp at h
    | none => rfl

/-- C8: `undo()` of src/src/calculator.rs, absent from the spec: with a
non-empty history it removes the most recent entry, restores that entry's
`operand1` (the pre-operation value) as the current value and returns it;
with an empty history it returns the `HistoryEmpty` error kind — a fifth kind
beyond the spec's four — and leaves the state unchanged. -/
theorem code_C8_undo (M : FloatModel) (c : Calculator M) :
    (∀ e, c.history.getLast? = some e →
      c.undo.2 = .ok e.operand1 ∧
      c.undo.1.current_value = e.operand1 ∧
      c.undo.1.history = c.history.dropLast ∧
      c.undo.1.max_history_size = c.max_history_size) ∧
    (c.history = [] → c.undo = (c, .error .historyEmpty)) := by
  constructor
  · intro e he
    unfold Calculator.undo
    rw [he]
    exact ⟨rfl, rfl, rfl, rfl⟩
  · intro he
    unfold Calculator.undo
    rw [he]
    rfl

/-- Witness for C8 at concrete inputs: undoing `undoProbe` (one entry, with
`operand1 = 1`) yields 1 and an empty history; undoing a fresh calculator
reports `HistoryEmpty`. -/
theorem code_C8_undo_witness :
    undoProbe.undo.2 = .ok (1 : Int) ∧
    undoProbe.undo.1.current_value = (1 : Int) ∧
    undoProbe.undo.1.history = [] ∧
    (Calculator.new IntModel).undo = (Calculator.new IntModel, .error .historyEmpty) := by
  have h := (code_C8_undo IntModel undoProbe).1 undoEntry rfl
  have h2 := (code_C8_undo IntModel (Calculator.new IntModel)).2 rfl
  exact ⟨h.1, h.2.1, h.2.2.1.trans rfl, h2⟩

/-- C1: for signed-64-bit values whose sum, difference and product are again
in the signed-64-bit range, `add`, `subtract` and `multiply` each succeed with
exactly the mathematical result, make it the current value, and append exactly
one history entry recording that result (the history grows by one entry, up to
the capacity bound, and the most recent entry is the new one). -/
theorem spec_C1_exact_arithmetic (c : Spec.Accumulator) (b : Int)
    (hlen : c.history.length ≤ c.capacity) (hcap : 0 < c.capacity)
    (_ha : Spec.fitsI64 c.current_value = true) (_hb : Spec.fitsI64 b = true) :
    (Spec.fitsI64 (c.current_value + b) = true →
      (c.add b).2 = .ok (c.current_value + b) ∧
      (c.add b).1.current_value = c.current_value + b ∧
      (c.add b).1.history.length = min (c.history.length + 1) c.capacity ∧
      (c.add b).1.history.getLast? =
        some { description := Spec.mkDesc c.current_value " + " b,
               result := c.current_value + b }) ∧
    (Spec.fitsI64 (c.current_value - b) = true →
      (c.subtract b).2 = .ok (c.current_value - b) ∧
      (c.subtract b).1.current_value = c.current_value - b ∧
      (c.subtract b).1.history.length = min (c.history.length + 1) c.capacity ∧
      (c.subtract b).1.history.getLast? =
        some { description := Spec.mkDesc c.current_value " - " b,
               result := c.current_value - b }) ∧
    (Spec.fitsI64 (c.current_value * b) = true →
      (c.multiply b).2 = .ok (c.current_value * b) ∧
      (c.multiply b).1.current_value = c.current_value * b ∧
      (c.multiply b).1.history.length = min (c.history.length + 1) c.capacity ∧
      (c.multiply b).1.history.getLast? =
        some { description := Spec.mkDesc c.current_value " × " b,
               result := c.current_value * b }) := by
  refine ⟨?_, ?_, ?_⟩
  · intro hfit
    have hx : Spec.exec1 c.current_value (.add b) =
        .ok (Spec.mkDesc c.current_value " + " b, c.current_value + b) := by
      simp [Spec.exec1, hfit]
    refine ⟨?_, ?_, ?_, ?_⟩
    · simp only [Spec.Accumulator.add, Spec.Accumulator.step, hx]
    · simp only [Spec.Accumulator.add, Spec.Accumulator.step, hx]
      rfl
    · simp only [Spec.Accumulator.add, Spec.Accumulator.step, hx]
      exact Spec.Accumulator.commit_length c _ _ hlen
    · simp only [Spec.Accumulator.add, Spec.Accumulator.step, hx]
      exact Spec.Accumulator.commit_getLast c _ _ hcap
  · intro hfit
    have hx : Spec.exec1 c.current_value (.sub b) =
        .ok (Spec.mkDesc c.current_value " - " b, c.current_value - b) := by
      simp [Spec.exec1, hfit]
    refine ⟨?_, ?_, ?_, ?_⟩
    · simp only [Spec.Accumulator.subtract, Spec.Accumulator.step, hx]
    · simp only [Spec.Accumulator.subtract, Spec.Accumulator.step, hx]
      rfl
    · simp only [Spec.Accumulator.subtract, Spec.Accumulator.step, hx]
      exact Spec.Accumulator.commit_length c _ _ hlen
    · simp only [Spec.Accumulator.subtract, Spec.Accumulator.step, hx]
      exact Spec.Accumulator.commit_getLast c _ _ hcap
  · intro hfit
    have hx : Spec.exec1 c.current_value (.mul b) =
        .ok (Spec.mkDesc c.current_value " × " b, c.current_value * b) := by
      simp [Spec.exec1, hfit]
    refine ⟨?_, ?_, ?_, ?_⟩
    · simp only [Spec.Accumulator.multiply, Spec.Accumulator.step, hx]
    · simp only [Spec.Accumulator.multiply, Spec.Accumulator.step, hx]
      rfl
    · simp only [Spec.Accumulator.multiply, Spec.Accumulator.step, hx]
      exact Spec.Accumulator.commit_length c _ _ hlen
    · simp only [Spec.Accumulator.multiply, Spec.Accumulator.step, hx]
      exact Spec.Accumulator.commit_getLast c _ _ hcap

/-- Witness for C1 at a concrete input: a fresh accumulator (capacity 100)
and operand 5; `add 5` returns 5, makes 5 the current value, and leaves one
entry whose result is 5. -/
theorem spec_C1_witness :
    ((Spec.Accumulator.new 100).add 5).2 = .ok 5 ∧
    ((Spec.Accumulator.new 100).add 5).1.current_value = 5 ∧
    ((Spec.Accumulator.new 100).add 5).1.history.length = 1 := by
  have h := (spec_C1_exact_arithmetic (Spec.Accumulator.new 100) 5
    (by decide) (by decide) (by decide) (by decide)).1 (by decide)
  exact ⟨h.1, h.2.1, h.2.2.1⟩

/-- C2: `add` reports Overflow exactly when the exact sum leaves the
signed-64-bit range, `subtract` reports Underflow exactly when the exact
difference does, and whenever the exact result fits it is committed exactly
(no wraparound), for the spec's checked-integer accumulator. -/
theorem spec_C2_checked_range (c : Spec.Accumulator) (b : Int) :
    ((c.add b).2 = .error .overflow ↔
      Spec.fitsI64 (c.current_value + b) = false) ∧
    ((c.subtract b).2 = .error .underflow ↔
      Spec.fitsI64 (c.current_value - b) = false) ∧
    (Spec.fitsI64 (c.current_value + b) = true →
      (c.add b).2 = .ok (c.current_value + b) ∧
      (c.add b).1.current_value = c.current_value + b) ∧
    (Spec.fitsI64 (c.current_value - b) = true →
      (c.subtract b).2 = .ok (c.current_value - b) ∧
      (c.subtract b).1.current_value = c.current_value - b) := by
  refine ⟨?_, ?_, ?_, ?_⟩
  · cases hf : Spec.fitsI64 (c.current_value + b) <;>
      simp [Spec.Accumulator.add, Spec.Accumulator.step, Spec.exec1, hf]
  · cases hf : Spec.fitsI64 (c.current_value - b) <;>
      simp [Spec.Accumulator.subtract, Spec.Accumulator.step, Spec.exec1, hf]
  · intro hf
    constructor <;>
      simp [Spec.Accumulator.add, Spec.Accumulator.step, Spec.exec1,
        Spec.Accumulator.commit, hf]
  · intro hf
    constructor <;>
      simp [Spec.Accumulator.subtract, Spec.Accumulator.step, Spec.exec1,
        Spec.Accumulator.commit, hf]

/-- Witness for C2 at concrete inputs: from current value 0, adding `2^63`
overflows (the sum is out of range), and subtracting `2^63 + 1` underflows,
while adding 7 commits exactly 7. -/
theorem spec_C2_witness :
    ((Spec.Accumulator.new 100).add (2 ^ 63)).2 = .error .overflow ∧
    ((Spec.Accumulator.new 100).subtract (2 ^ 63 + 1)).2 = .error .underflow ∧
    ((Spec.Accumulator.new 100).add 7).2 = .ok 7 := by
  refine ⟨?_, ?_, ?_⟩
  · exact (spec_C2_checked_range (Spec.Accumulator.new 100) (2 ^ 63)).1.mpr
      (by decide)
  · exact (spec_C2_checked_range (Spec.Accumulator.new 100) (2 ^ 63 + 1)).2.1.mpr
      (by decide)
  · exact ((spec_C2_checked_range (Spec.Accumulator.new 100) 7).2.2.1 (by decide)).1

/-- A step whose pure execution succeeds commits the produced entry. -/
theorem Spec.Accumulator.step_ok (c : Spec.Accumulator) (i : Spec.Instr)
    (d : String) (r : Int) (hx : Spec.exec1 c.current_value i = .ok (d, r)) :
    c.step i = (c.commit d r, .ok r) := by
  unfold Spec.Accumulator.step
  rw [hx]

/-- A step whose pure execution fails leaves the state unchanged and returns
the error. -/
theorem Spec.Accumulator.step_error (c : Spec.Accumulator) (i : Spec.Instr)
    (e : Spec.AccError) (hx : Spec.exec1 c.current_value i = .error e) :
    c.step i = (c, .error e) := by
  unfold Spec.Accumulator.step
  rw [hx]

/-- Every state reachable without clear-history has positive capacity. -/
theorem Spec.ReachableNoCH.cap_pos (c : Spec.Accumulator)
    (h : Spec.ReachableNoCH c) : 0 < c.capacity := by
  induction h with
  | new cap hpos => exact hpos
  | step c i hr ih => rw [Spec.Accumulator.step_capacity]; exact ih
  | clear c hr ih => exact ih

/-- `lastN` of a list already within the bound is the whole list. -/
theorem Spec.lastN_of_le (cap : Nat) (l : List Spec.HistoryEntry)
    (h : l.length ≤ cap) : Spec.lastN cap l = l := by
  unfold Spec.lastN
  rw [Nat.sub_eq_zero_of_le h, List.drop_zero]

/-- Committing from a state within capacity keeps exactly the last `capacity`
entries of the appended history. -/
theorem Spec.Accumulator.commit_history (c : Spec.Accumulator) (d : String)
    (r : Int) (h : c.history.length ≤ c.capacity) :
    (c.commit d r).history =
      Spec.lastN c.capacity (c.history ++ [{ description := d, result := r }]) := by
  unfold Spec.Accumulator.commit Spec.lastN
  simp only
  split
  · rename_i hcond
    simp only [List.length_append, List.length_cons, List.length_nil] at hcond ⊢
    have h1 : c.history.length + (0 + 1) - c.capacity = 1 := by omega
    rw [h1, List.drop_one]
  · rename_i hcond
    simp only [List.length_append, List.length_cons, List.length_nil] at hcond ⊢
    have h1 : c.history.length + (0 + 1) - c.capacity = 0 := by omega
    rw [h1, List.drop_zero]

/-- Taking the last `cap` elements, appending, and taking the last `cap`
again is the same as appending and taking the last `cap` once. -/
theorem Spec.lastN_lastN_append (cap : Nat) (x y : List Spec.HistoryEntry) :
    Spec.lastN cap (Spec.lastN cap x ++ y) = Spec.lastN cap (x ++ y) := by
  unfold Spec.lastN
  rw [← List.drop_append_of_le_length (Nat.sub_le x.length cap), List.drop_drop]
  congr 1
  simp only [List.length_drop, List.length_append]
  omega

/-- The trace of a successful run has one entry per instruction. -/
theorem Spec.traceRun_length (l : List Spec.Instr) :
    ∀ (a : Int) (tr : List Spec.HistoryEntry) (v : Int),
      Spec.traceRun a l = some (tr, v) → tr.length = l.length := by
  induction l with
  | nil =>
    intro a tr v h
    simp [Spec.traceRun] at h
    rw [h.1]
    rfl
  | cons i rest ih =>
    intro a tr v h
    unfold Spec.traceRun at h
    cases hx : Spec.exec1 a i with
    | error e => simp only [hx] at h; exact Option.noConfusion h
    | ok p =>
      obtain ⟨d, r⟩ := p
      simp only [hx] at h
      cases ht : Spec.traceRun r rest with
      | none => simp only [ht] at h; exact Option.noConfusion h
      | some q =>
        obtain ⟨tr2, v2⟩ := q
        simp only [ht, Option.some.injEq, Prod.mk.injEq] at h
        rw [← h.1]
        simp [ih r tr2 v2 ht]

/-- A successful bounded run is the unbounded trace with the history cut to
the last `capacity` entries. -/
theorem Spec.runAll_spec (l : List Spec.Instr) :
    ∀ (c c' : Spec.Accumulator), c.history.length ≤ c.capacity →
      Spec.runAll c l = some c' →
      ∃ tr v, Spec.traceRun c.current_value l = some (tr, v) ∧
        c'.capacity = c.capacity ∧ c'.current_value = v ∧
        c'.history = Spec.lastN c.capacity (c.history ++ tr) := by
  induction l with
  | nil =>
    intro c c' hlen h
    simp [Spec.runAll] at h
    subst h
    exact ⟨[], c.current_value, rfl, rfl, rfl, by
      simp only [List.append_nil]
      exact (Spec.lastN_of_le _ _ hlen).symm⟩
  | cons i rest ih =>
    intro c c' hlen h
    unfold Spec.runAll at h
    cases hx : Spec.exec1 c.current_value i with
    | error e =>
      rw [Spec.Accumulator.step_error c i e hx] at h
      simp at h
    | ok p =>
      obtain ⟨d, r⟩ := p
      rw [Spec.Accumulator.step_ok c i d r hx] at h
      simp only at h
      have hlen2 : (c.commit d r).history.length ≤ (c.commit d r).capacity := by
        rw [Spec.Accumulator.commit_capacity, Spec.Accumulator.commit_length c d r hlen]
        omega
      obtain ⟨tr, v, htr, hcap2, hcur, hhist⟩ := ih (c.commit d r) c' hlen2 h
      have htr2 : Spec.traceRun r rest = some (tr, v) := htr
      refine ⟨{ description := d, result := r } :: tr, v, ?_, ?_, hcur, ?_⟩
      · simp only [Spec.traceRun, hx, htr2]
      · rw [hcap2, Spec.Accumulator.commit_capacity]
      · rw [hhist, Spec.Accumulator.commit_history c d r hlen,
          Spec.Accumulator.commit_capacity, Spec.lastN_lastN_append,
          List.append_assoc, List.singleton_append]

/-- C5 counterexample: the claim "the current value equals the result of the
most recent history entry, or equals 0 if the history is empty" fails on a
reachable state: a fresh accumulator after a successful `add 5` followed by
`clear_history` has an empty history and current value 5, not 0. -/
theorem spec_C5_counterexample :
    Spec.Reachable Spec.afterClearHistory ∧
    Spec.afterClearHistory.history = [] ∧
    Spec.afterClearHistory.current_value = 5 ∧
    Spec.afterClearHistory.current_value ≠ 0 := by
  refine ⟨?_, rfl, rfl, by decide⟩
  exact Spec.Reachable.clear_history _
    (Spec.Reachable.step _ _ (Spec.Reachable.new 100 (by norm_num)))

/-- C5 (amended): in every reachable state with a non-empty history the
current value equals the `result` of the most recent history entry; and in
every state reachable without `clear_history`, an empty history implies the
current value is 0 (failed operations record nothing and change nothing, so
they preserve both facts). -/
theorem spec_C5_amended :
    (∀ c : Spec.Accumulator, Spec.Reachable c → ∀ e : Spec.HistoryEntry,
      c.history.getLast? = some e → c.current_value = e.result) ∧
    (∀ c : Spec.Accumulator, Spec.ReachableNoCH c →
      c.history = [] → c.current_value = 0) := by
  constructor
  · intro c hr
    induction hr with
    | new cap hpos => intro e he; simp [Spec.Accumulator.new] at he
    | step c i hrc ih =>
      intro e he
      cases hx : Spec.exec1 c.current_value i with
      | ok p =>
        obtain ⟨d, r⟩ := p
        rw [Spec.Accumulator.step_ok c i d r hx] at he ⊢
        have hde := Spec.Accumulator.commit_getLast_eq c d r e he
        rw [hde]
        rfl
      | error e2 =>
        rw [Spec.Accumulator.step_error c i e2 hx] at he ⊢
        exact ih e he
    | clear c hrc ih => intro e he; simp [Spec.Accumulator.clear] at he
    | clear_history c hrc ih => intro e he; simp [Spec.Accumulator.clear_history] at he
  · intro c hr
    induction hr with
    | new cap hpos => intro _; rfl
    | step c i hrc ih =>
      intro hemp
      cases hx : Spec.exec1 c.current_value i with
      | ok p =>
        obtain ⟨d, r⟩ := p
        rw [Spec.Accumulator.step_ok c i d r hx] at hemp ⊢
        exfalso
        have hcap : 0 < c.capacity := Spec.ReachableNoCH.cap_pos c hrc
        have hlast := Spec.Accumulator.commit_getLast c d r hcap
        have : (c.commit d r).history = [] := hemp
        rw [this] at hlast
        simp at hlast
      | error e2 =>
        rw [Spec.Accumulator.step_error c i e2 hx] at hemp ⊢
        exact ih hemp
    | clear c hrc ih => intro _; rfl

/-- Witness for C5's amended claim at concrete inputs: after `add 5` on a
fresh accumulator the most recent entry records 5 and the current value is 5;
a fresh accumulator with empty history has current value 0. -/
theorem spec_C5_amended_witness :
    ((Spec.Accumulator.new 100).step (Spec.Instr.add 5)).1.current_value =
      ({ description := "0 + 5", result := 5 } : Spec.HistoryEntry).result ∧
    (Spec.Accumulator.new 100).current_value = 0 := by
  constructor
  · exact spec_C5_amended.1 _
      (Spec.Reachable.step _ _ (Spec.Reachable.new 100 (by norm_num))) _ rfl
  · exact spec_C5_amended.2 _ (Spec.ReachableNoCH.new 100 (by norm_num)) rfl

/-- C6: the history length never exceeds the construction-time capacity in
any reachable state; and a fresh accumulator of capacity `N`, after `N + 1`
successful operations, holds exactly `N` entries: the full insertion-ordered
trace with its oldest (first recorded) entry evicted. -/
theorem spec_C6_bounded_fifo :
    (∀ c : Spec.Accumulator, Spec.Reachable c → c.history.length ≤ c.capacity) ∧
    (∀ (N : Nat) (l : List Spec.Instr) (c' : Spec.Accumulator),
      l.length = N + 1 →
      Spec.runAll (Spec.Accumulator.new N) l = some c' →
      ∃ tr v, Spec.traceRun 0 l = some (tr, v) ∧
        c'.history = tr.tail ∧ c'.history.length = N ∧ c'.current_value = v) := by
  constructor
  · intro c hr
    induction hr with
    | new cap hpos => simp [Spec.Accumulator.new]
    | step c i hrc ih =>
      cases hx : Spec.exec1 c.current_value i with
      | ok p =>
        obtain ⟨d, r⟩ := p
        rw [Spec.Accumulator.step_ok c i d r hx]
        show (c.commit d r).history.length ≤ (c.commit d r).capacity
        rw [Spec.Accumulator.commit_capacity, Spec.Accumulator.commit_length c d r ih]
        omega
      | error e =>
        rw [Spec.Accumulator.step_error c i e hx]
        exact ih
    | clear c hrc ih => simp [Spec.Accumulator.clear]
    | clear_history c hrc ih => simp [Spec.Accumulator.clear_history]
  · intro N l c' hlen hrun
    obtain ⟨tr, v, htr, hcap, hcur, hhist⟩ :=
      Spec.runAll_spec l (Spec.Accumulator.new N) c'
        (by simp [Spec.Accumulator.new]) hrun
    have htr0 : Spec.traceRun 0 l = some (tr, v) := htr
    have htl : tr.length = N + 1 := by
      rw [Spec.traceRun_length l 0 tr v htr0]
      exact hlen
    have hhist2 : c'.history = tr.tail := by
      rw [hhist]
      show Spec.lastN N ((Spec.Accumulator.new N).history ++ tr) = tr.tail
      unfold Spec.lastN
      simp only [Spec.Accumulator.new, List.nil_append]
      have h1 : tr.length - N = 1 := by omega
      rw [h1, List.drop_one]
    refine ⟨tr, v, htr0, hhist2, ?_, hcur⟩
    rw [hhist2]
    simp [List.length_tail]
    omega

/-- Witness for C6 at concrete inputs: capacity 1 and the two successful
operations `add 1; add 2` leave exactly the one newer entry `"1 + 2" = 3`,
with the older entry `"0 + 1" = 1` evicted; and a fresh accumulator is
within its capacity bound. -/
theorem spec_C6_witness :
    (∃ tr v, Spec.traceRun 0 [Spec.Instr.add 1, Spec.Instr.add 2] = some (tr, v) ∧
      ({ current_value := 3,
         history := [{ description := "1 + 2", result := 3 }],
         capacity := 1 } : Spec.Accumulator).history = tr.tail ∧
      ({ current_value := 3,
         history := [{ description := "1 + 2", result := 3 }],
         capacity := 1 } : Spec.Accumulator).history.length = 1 ∧
      ({ current_value := 3,
         history := [{ description := "1 + 2", result := 3 }],
         capacity := 1 } : Spec.Accumulator).current_value = v) ∧
    (Spec.Accumulator.new 2).history.length ≤ (Spec.Accumulator.new 2).capacity := by
  constructor
  · exact spec_C6_bounded_fifo.2 1 [Spec.Instr.add 1, Spec.Instr.add 2] _ rfl rfl
  · exact spec_C6_bounded_fifo.1 _ (Spec.Reachable.new 2 (by norm_num))

/-- C7: `factorial()` is defined exactly for current values in `[0, 20]`: at
current value 5 it yields 120; at 21 or above it returns Overflow; at any
negative current value it returns Invalid("factorial of negative"); both
out-of-precondition calls leave the state unchanged. -/
theorem spec_C7_factorial (c : Spec.Accumulator) :
    (c.current_value = 5 → c.factorial.2 = .ok 120) ∧
    (21 ≤ c.current_value → c.factorial = (c, .error .overflow)) ∧
    (c.current_value < 0 →
      c.factorial = (c, .error (.invalid "factorial of negative"))) ∧
    (0 ≤ c.current_value → c.current_value ≤ 20 →
      ∃ r, c.factorial.2 = .ok r) := by
  refine ⟨?_, ?_, ?_, ?_⟩
  · intro h5
    have hx : Spec.exec1 c.current_value .fact = .ok ("5!", 120) := by
      rw [h5]
      rfl
    rw [Spec.Accumulator.factorial, Spec.Accumulator.step_ok c .fact "5!" 120 hx]
  · intro h21
    have h1 : ¬(c.current_value < 0) := by omega
    have h2 : 20 < c.current_value := by omega
    have hx : Spec.exec1 c.current_value .fact = .error .overflow := by
      unfold Spec.exec1
      rw [if_neg h1, if_pos h2]
    rw [Spec.Accumulator.factorial, Spec.Accumulator.step_error c .fact _ hx]
  · intro hneg
    have hx : Spec.exec1 c.current_value .fact =
        .error (.invalid "factorial of negative") := by
      unfold Spec.exec1
      rw [if_pos hneg]
    rw [Spec.Accumulator.factorial, Spec.Accumulator.step_error c .fact _ hx]
  · intro h0 h20
    rw [Spec.Accumulator.factorial]
    have hex : ∃ r, Spec.exec1 c.current_value .fact = .ok (toString c.current_value ++ "!", r) := by
      generalize c.current_value = a at h0 h20
      interval_cases a <;> exact ⟨_, rfl⟩
    obtain ⟨r, hr⟩ := hex
    rw [Spec.Accumulator.step_ok c .fact _ r hr]
    exact ⟨r, rfl⟩

/-- Witness for C7 at concrete inputs: factorial of 5 is 120; factorial at 21
is Overflow with the state unchanged; factorial at -1 is Invalid with the
state unchanged. -/
theorem spec_C7_witness :
    (({ current_value := 5, history := [], capacity := 100 } :
        Spec.Accumulator).factorial.2 = .ok 120) ∧
    (({ current_value := 21, history := [], capacity := 100 } :
        Spec.Accumulator).factorial =
      ({ current_value := 21, history := [], capacity := 100 },
       .error .overflow)) ∧
    (({ current_value := -1, history := [], capacity := 100 } :
        Spec.Accumulator).factorial =
      ({ current_value := -1, history := [], capacity := 100 },
       .error (.invalid "factorial of negative"))) := by
  refine ⟨?_, ?_, ?_⟩
  · exact (spec_C7_factorial _).1 rfl
  · exact (spec_C7_factorial _).2.1 (by norm_num)
  · exact (spec_C7_factorial _).2.2.1 (by norm_num)

/-- C10: the pure helper `calculate_simple` and the stateful
`perform_operation` of src/src/calculator.rs succeed on exactly the same
inputs with the same numeric result: for every model of the f64 primitives,
every calculator state, operation tag and operand, `calculate_simple` at the
calculator's current value returns `Ok r` precisely when `perform_operation`
does. -/
theorem code_C10_calculate_simple_refines (M : FloatModel) (c : Calculator M)
    (op : Operation) (b : M.F) (r : M.F) :
    calculate_simple M c.current_value op b = .ok r ↔
      (c.perform_operation op b).2 = .ok r := by
  cases op with
  | add =>
    simp only [calculate_simple, Calculator.perform_operation, Calculator.add,
      check_overflow_add]
    cases hf : M.isFinite (M.add c.current_value b)
    · cases hi : M.isInfinite (M.add c.current_value b) <;> simp
    · simp
  | subtract =>
    simp only [calculate_simple, Calculator.perform_operation,
      Calculator.subtract, check_overflow_sub]
    cases hf : M.isFinite (M.sub c.current_value b)
    · cases hi : M.isInfinite (M.sub c.current_value b) <;>
        cases hs : M.isSignPositive (M.sub c.current_value b) <;> simp
    · simp
  | multiply =>
    simp only [calculate_simple, Calculator.perform_operation,
      Calculator.multiply, check_overflow_mul]
    cases hf : M.isFinite (M.mul c.current_value b)
    · cases hi : M.isInfinite (M.mul c.current_value b) <;> simp
    · simp
  | divide =>
    simp only [calculate_simple, Calculator.perform_operation, Calculator.divide]
    cases hz : M.isZero b
    · cases hf : M.isFinite (M.div c.current_value b) <;> simp
    · simp
  | power =>
    simp only [calculate_simple, Calculator.perform_operation, Calculator.power]
    cases hf : M.isFinite (M.powf c.current_value b) <;> simp
  | modulo =>
    simp only [calculate_simple, Calculator.perform_operation, Calculator.modulo]
    cases hz : M.isZero b <;> simp

/-- Witness for C10 at concrete inputs over `IntModel`: both the helper and
the dispatched method return 8 for adding 3 to current value 5, and both
refuse dividing by zero. -/
theorem code_C10_witness :
    (calculate_simple IntModel
        ({ current_value := (5 : Int), history := [], max_history_size := 100 } :
          Calculator IntModel).current_value .add (3 : Int) = .ok (8 : Int) ↔
      (({ current_value := (5 : Int), history := [], max_history_size := 100 } :
          Calculator IntModel).perform_operation .add (3 : Int)).2 = .ok (8 : Int)) ∧
    (calculate_simple IntModel
        ({ current_value := (5 : Int), history := [], max_history_size := 100 } :
          Calculator IntModel).current_value .divide (0 : Int) = .ok (8 : Int) ↔
      (({ current_value := (5 : Int), history := [], max_history_size := 100 } :
          Calculator IntModel).perform_operation .divide (0 : Int)).2 = .ok (8 : Int)) :=
  ⟨code_C10_calculate_simple_refines IntModel _ .add (3 : Int) (8 : Int),
   code_C10_calculate_simple_refines IntModel _ .divide (0 : Int) (8 : Int)⟩
